import Mathlib

/-!
Verification development for the editing core of the `lazyide` terminal editor.

The definitions below are a shallow embedding of the Rust sources:
`src/syntax.rs` (language detection and the per-line tokenizer
`highlight_line`), `src/app/input.rs` (the key/mouse dispatch chain and the
tree double-click detection) and the document-session lifecycle described by
the `Tab` struct of `src/tab.rs`.

Lines of text are modelled as `List Char` (the Rust code indexes byte
positions, but every slice boundary it produces falls on a UTF-8 character
boundary, so the produced spans are exactly sequences of code points).
The `u16` nesting depth is modelled as a `Nat` together with explicit
saturation at `65535`.
-/

/-- RGB colors as used by the theme and the bracket cycle
(`ratatui::style::Color::Rgb`). -/
inductive Color
  | Rgb (r g b : Nat)
deriving DecidableEq

/-- The fragment of `ratatui::style::Style` that `highlight_line` uses:
an optional foreground color (`Style::default().fg(..)`) and the BOLD
modifier. `Span::raw` text carries the default style `⟨none, false⟩`. -/
structure Style where
  fg : Option Color
  bold : Bool
deriving DecidableEq

/-- The fields of `Theme` (from `theme.rs`, present in the repository but not
under `src/`) that `highlight_line` reads. -/
structure Theme where
  fg : Color
  accent : Color
  comment : Color
  syntax_string : Color
  syntax_number : Color
  syntax_tag : Color
  syntax_attribute : Color
deriving DecidableEq

/-- One styled text segment (`ratatui::text::Span`). -/
structure Span where
  content : List Char
  style : Style
deriving DecidableEq

/-- `SyntaxLang` from `src/syntax.rs`. -/
inductive SyntaxLang
  | Plain
  | Rust
  | Python
  | JsTs
  | Go
  | Php
  | Css
  | HtmlXml
  | Shell
  | Json
  | Markdown
deriving DecidableEq

/-- `Style::default().fg(theme.fg)` — the base style. -/
def baseStyle (th : Theme) : Style := ⟨some th.fg, false⟩

/-- `Style::default().fg(theme.accent).add_modifier(Modifier::BOLD)`. -/
def keywordStyle (th : Theme) : Style := ⟨some th.accent, true⟩

/-- `Style::default().fg(theme.syntax_string)`. -/
def stringStyle (th : Theme) : Style := ⟨some th.syntax_string, false⟩

/-- `Style::default().fg(theme.syntax_number)`. -/
def numberStyle (th : Theme) : Style := ⟨some th.syntax_number, false⟩

/-- `Style::default().fg(theme.comment)`. -/
def commentStyle (th : Theme) : Style := ⟨some th.comment, false⟩

/-- `Style::default().fg(theme.syntax_tag).add_modifier(Modifier::BOLD)`:
used both for Markdown headings and for HTML tag heads. -/
def headingStyle (th : Theme) : Style := ⟨some th.syntax_tag, true⟩

/-- `Style::default().fg(theme.syntax_attribute)`. -/
def attrStyle (th : Theme) : Style := ⟨some th.syntax_attribute, false⟩

/-- The style of `Span::raw`. -/
def rawStyle : Style := ⟨none, false⟩

/-- `Style::default().fg(color)` for a bracket color. -/
def bracketStyle (c : Color) : Style := ⟨some c, false⟩

/-- The 3-entry bracket color cycle `&[Color; 3]`. -/
structure BracketColors where
  c0 : Color
  c1 : Color
  c2 : Color
deriving DecidableEq

/-- `bracket_colors[(d % 3) as usize]` — `d` is already reduced mod 3 by the
caller sites in `highlight_line`, so only indices 0, 1, 2 occur. -/
def bcGet (bc : BracketColors) (n : Nat) : Color :=
  if n = 0 then bc.c0 else if n = 1 then bc.c1 else bc.c2

/-- `is_ident_char` from `src/syntax.rs`: ASCII alphanumeric or underscore. -/
def is_ident_char (c : Char) : Bool :=
  c.isAlphanum || c = '_'

/-- The characters a number token continues through:
ASCII digit, `_` or `.` (`src/syntax.rs` number branch). -/
def isNumContChar (c : Char) : Bool :=
  c.isDigit || c = '_' || c = '.'

/-- `keywords_for_lang` from `src/syntax.rs`, verbatim tables. -/
def keywords_for_lang : SyntaxLang → List String
  | SyntaxLang.Rust =>
    [ "fn", "let", "mut", "impl", "trait", "struct", "enum", "match", "if",
      "else", "for", "while", "loop", "pub", "use", "mod", "crate", "self",
      "super", "return", "async", "await", "move", "const", "static", "where",
      "in", "break", "continue", "type", "dyn" ]
  | SyntaxLang.Python =>
    [ "def", "class", "if", "elif", "else", "for", "while", "try", "except",
      "return", "import", "from", "as", "with", "async", "await", "yield",
      "lambda", "pass", "None", "True", "False" ]
  | SyntaxLang.JsTs =>
    [ "function", "const", "let", "var", "class", "if", "else", "for",
      "while", "return", "import", "from", "export", "default", "async",
      "await", "try", "catch", "switch", "case", "break", "continue",
      "interface", "type", "extends", "implements" ]
  | SyntaxLang.Go =>
    [ "package", "import", "func", "var", "const", "type", "struct",
      "interface", "map", "chan", "go", "defer", "select", "if", "else",
      "switch", "case", "default", "for", "range", "return", "break",
      "continue", "fallthrough" ]
  | SyntaxLang.Php =>
    [ "function", "class", "interface", "trait", "public", "private",
      "protected", "static", "if", "else", "elseif", "switch", "case",
      "default", "for", "foreach", "while", "do", "return", "new", "use",
      "namespace", "try", "catch", "finally", "fn" ]
  | SyntaxLang.Css =>
    [ "@media", "@supports", "@keyframes", "display", "position", "color",
      "background", "border", "margin", "padding", "width", "height", "font",
      "grid", "flex" ]
  | SyntaxLang.Shell =>
    [ "if", "then", "else", "fi", "for", "do", "done", "while", "case",
      "esac", "function", "export", "local" ]
  | SyntaxLang.HtmlXml | SyntaxLang.Json | SyntaxLang.Markdown
  | SyntaxLang.Plain => []

/-- `comment_start_for_lang` from `src/syntax.rs`. -/
def comment_start_for_lang : SyntaxLang → Option (List Char)
  | SyntaxLang.Rust | SyntaxLang.JsTs | SyntaxLang.Go => some ['/', '/']
  | SyntaxLang.Php | SyntaxLang.Css => some ['/', '*']
  | SyntaxLang.Python | SyntaxLang.Shell => some ['#']
  | SyntaxLang.HtmlXml | SyntaxLang.Json | SyntaxLang.Markdown
  | SyntaxLang.Plain => none

/-- The block comment opener `"/*"`. -/
def slashStar : List Char := ['/', '*']

/-- `line[i + 2..].find("*/")` — index (in code points) of the first
occurrence of the substring `*/`. Both of its characters are ASCII, so byte
and code-point granularity agree. -/
def findStarSlash : List Char → Option Nat
  | '*' :: '/' :: _ => some 0
  | _ :: rest => Option.map (· + 1) (findStarSlash rest)
  | [] => none

/-- Result of the comment check `highlight_line` performs at every scan
position: `block n` means a `/*` opens here with the matching `*/` found
`n` characters after the opener (the comment token then has `n + 4`
characters); `toEol` means the rest of the line is one comment span. -/
inductive CommentHit
  | block (n : Nat)
  | toEol
deriving DecidableEq

/-- The comment dispatch at a scan position of the generic loop of
`highlight_line` (`src/syntax.rs` lines 280-295): the block opener `/*`
(only when the language's marker is `/*`) styles up to a `*/` found later on
the line or the whole rest; any other marker styles the whole rest. -/
def commentHit (lang : SyntaxLang) (cs : List Char) : Option CommentHit :=
  match comment_start_for_lang lang with
  | none => none
  | some com =>
    if com = slashStar then
      if slashStar.isPrefixOf cs then
        match findStarSlash (cs.drop 2) with
        | some n => some (CommentHit.block n)
        | none => some CommentHit.toEol
      else none
    else if com.isPrefixOf cs then some CommentHit.toEol
    else none

/-- The string-literal loop of `highlight_line` (`src/syntax.rs` lines
301-312), started on the characters after the opening quote `q`: a `\`
followed by another character skips that character; the scan stops after an
unskipped `q` or at the end of the line.  Returns the consumed characters
and the remainder. -/
def takeString (q : Char) : List Char → List Char × List Char
  | [] => ([], [])
  | c :: cs =>
    if c = '\\' then
      match cs with
      | [] => ([c], [])
      | e :: cs' => (c :: e :: (takeString q cs').1, (takeString q cs').2)
    else if c = q then ([c], cs)
    else (c :: (takeString q cs).1, (takeString q cs).2)

/-- One-step unfolding of `takeString` on a nonempty list. -/
theorem takeString_cons (q c : Char) (cs : List Char) :
    takeString q (c :: cs) =
      if c = '\\' then
        match cs with
        | [] => ([c], [])
        | e :: cs' => (c :: e :: (takeString q cs').1, (takeString q cs').2)
      else if c = q then ([c], cs)
      else (c :: (takeString q cs).1, (takeString q cs).2) := by
  cases cs <;> by_cases h : c = '\\' <;> simp [takeString, h]

/-- The remainder left by `takeString` is no longer than the input. -/
theorem takeString_rest_le (q : Char) :
    ∀ cs : List Char, (takeString q cs).2.length ≤ cs.length
  | [] => by simp [takeString]
  | c :: cs => by
    rw [takeString_cons]
    by_cases h : c = '\\'
    · cases cs with
      | nil => simp [h]
      | cons e cs' =>
        have ih := takeString_rest_le q cs'
        simp [h]
        omega
    · by_cases h2 : c = q
      · subst h2
        simp [h]
      · have ih := takeString_rest_le q cs
        simp [h, h2]
        omega

/-- The consumed part and the remainder of `takeString` concatenate back to
the input. -/
theorem takeString_append (q : Char) :
    ∀ cs : List Char, (takeString q cs).1 ++ (takeString q cs).2 = cs
  | [] => by simp [takeString]
  | c :: cs => by
    rw [takeString_cons]
    by_cases h : c = '\\'
    · cases cs with
      | nil => simp [h]
      | cons e cs' =>
        have ih := takeString_append q cs'
        simp [h, ih]
    · by_cases h2 : c = q
      · subst h2
        simp [h]
      · have ih := takeString_append q cs
        simp [h, h2, ih]

/-- `dropWhile` never lengthens a list. -/
theorem dropWhile_length_le (p : Char → Bool) (l : List Char) :
    (l.dropWhile p).length ≤ l.length := by
  induction l with
  | nil => simp
  | cons a l ih =>
    by_cases h : p a
    · simp only [List.dropWhile, h, List.length_cons]
      exact Nat.le_succ_of_le ih
    · simp [List.dropWhile, h]

/-- `bd.saturating_add(1)` on `u16`. -/
def satAdd1 (bd : Nat) : Nat := min (bd + 1) 65535

/-- The generic scanning loop of `highlight_line` (`src/syntax.rs` lines
279-361), for the languages that are not Plain, Markdown or HtmlXml.
Returns the spans together with the final bracket depth `bd`
(the Rust local mutable `bd`; subtraction on `Nat` models
`saturating_sub`). -/
def scanGeneric (lang : SyntaxLang) (th : Theme) (bc : BracketColors) :
    List Char → Nat → List Span × Nat
  | [], bd => ([], bd)
  | ch :: rest, bd =>
    match commentHit lang (ch :: rest) with
    | some (CommentHit.block n) =>
      let res := scanGeneric lang th bc ((ch :: rest).drop (n + 4)) bd
      (⟨(ch :: rest).take (n + 4), commentStyle th⟩ :: res.1, res.2)
    | some CommentHit.toEol => ([⟨ch :: rest, commentStyle th⟩], bd)
    | none =>
      if ch = '"' ∨ ch = '\'' then
        let p := takeString ch rest
        let res := scanGeneric lang th bc p.2 bd
        (⟨ch :: p.1, stringStyle th⟩ :: res.1, res.2)
      else if ch.isDigit then
        let res := scanGeneric lang th bc (rest.dropWhile isNumContChar) bd
        (⟨ch :: rest.takeWhile isNumContChar, numberStyle th⟩ :: res.1, res.2)
      else if is_ident_char ch then
        let tok := ch :: rest.takeWhile is_ident_char
        let sty :=
          if String.mk tok ∈ keywords_for_lang lang then keywordStyle th
          else baseStyle th
        let res := scanGeneric lang th bc (rest.dropWhile is_ident_char) bd
        (⟨tok, sty⟩ :: res.1, res.2)
      else if ch = '{' ∨ ch = '(' ∨ ch = '[' then
        let res := scanGeneric lang th bc rest (satAdd1 bd)
        (⟨[ch], bracketStyle (bcGet bc (bd % 3))⟩ :: res.1, res.2)
      else if ch = '}' ∨ ch = ')' ∨ ch = ']' then
        let res := scanGeneric lang th bc rest (bd - 1)
        (⟨[ch], bracketStyle (bcGet bc ((bd - 1) % 3))⟩ :: res.1, res.2)
      else
        let res := scanGeneric lang th bc rest bd
        (⟨[ch], baseStyle th⟩ :: res.1, res.2)
termination_by cs _ => cs.length
decreasing_by
  all_goals simp_all [List.length_drop]
  all_goals first
  | omega
  | (have h := takeString_rest_le ch rest
     omega)
  | (have h1 := dropWhile_length_le isNumContChar rest
     omega)
  | (have h2 := dropWhile_length_le is_ident_char rest
     omega)

/-- Unicode `White_Space` code points, as tested by Rust's
`char::is_whitespace` (used by `trim_start` and `split_whitespace`). -/
def isRustWhitespace (c : Char) : Bool :=
  (0x9 ≤ c.toNat && c.toNat ≤ 0xD) || c.toNat = 0x20 || c.toNat = 0x85 ||
  c.toNat = 0xA0 || c.toNat = 0x1680 ||
  (0x2000 ≤ c.toNat && c.toNat ≤ 0x200A) || c.toNat = 0x2028 ||
  c.toNat = 0x2029 || c.toNat = 0x202F || c.toNat = 0x205F ||
  c.toNat = 0x3000

/-- The consume-up-to-and-including loop the HtmlXml branch of
`highlight_line` uses both for tag regions (stop `>`) and quoted attribute
values (stop quote): consumed characters (stop included when present) plus
remainder. -/
def takeThrough (stop : Char) : List Char → List Char × List Char
  | [] => ([], [])
  | c :: cs =>
    if c = stop then ([c], cs)
    else (c :: (takeThrough stop cs).1, (takeThrough stop cs).2)

/-- One-step unfolding of `takeThrough` on a nonempty list. -/
theorem takeThrough_cons (stop c : Char) (cs : List Char) :
    takeThrough stop (c :: cs) =
      if c = stop then ([c], cs)
      else (c :: (takeThrough stop cs).1, (takeThrough stop cs).2) := by
  by_cases h : c = stop <;> simp [takeThrough, h]

/-- The remainder left by `takeThrough` is no longer than the input. -/
theorem takeThrough_rest_le (stop : Char) :
    ∀ cs : List Char, (takeThrough stop cs).2.length ≤ cs.length
  | [] => by simp [takeThrough]
  | c :: cs => by
    rw [takeThrough_cons]
    by_cases h : c = stop
    · simp [h]
    · have ih := takeThrough_rest_le stop cs
      simp [h]
      omega

/-- `str::split_whitespace`: the maximal runs of non-whitespace characters,
the separating whitespace discarded. -/
def splitWs : List Char → List (List Char)
  | [] => []
  | c :: cs =>
    if isRustWhitespace c then splitWs cs
    else
      (c :: cs.takeWhile (fun d => ¬ isRustWhitespace d)) ::
        splitWs (cs.dropWhile (fun d => ¬ isRustWhitespace d))
termination_by cs => cs.length
decreasing_by
  · simp
  · simp only [List.length_cons]
    exact Nat.lt_succ_of_le (dropWhile_length_le _ _)

/-- The spans the HtmlXml branch emits for one whitespace-separated part of
a tag region: split at the first `=` into a styled key and a raw value when
one occurs, the whole part attribute-styled otherwise. -/
def attrSpans (th : Theme) (part : List Char) : List Span :=
  if part.any (fun c => c = '=') then
    [⟨part.takeWhile (fun c => ¬ c = '='), attrStyle th⟩,
     ⟨part.dropWhile (fun c => ¬ c = '='), rawStyle⟩]
  else [⟨part, attrStyle th⟩]

/-- The spans the HtmlXml branch emits for one tag region `<...>`
(`src/syntax.rs` lines 229-245): the first whitespace token is tag-styled,
each later token is prefixed by a single raw space and attribute-split.
The token containing `<` is never whitespace, so the empty split only occurs
for an empty tag text. -/
def tagSpans (th : Theme) (tag : List Char) : List Span :=
  match splitWs tag with
  | [] => [⟨tag, headingStyle th⟩]
  | head :: parts =>
    ⟨head, headingStyle th⟩ ::
      (parts.map (fun part => ⟨[' '], rawStyle⟩ :: attrSpans th part)).flatten

/-- The HtmlXml scanning loop of `highlight_line` (`src/syntax.rs` lines
205-265): `<!--` comments out the rest of the line, `<` opens a tag region
consumed through the next `>`, quotes open attribute values consumed through
the matching quote (no escapes), and any other character is a base-styled
single-character span. -/
def htmlScan (th : Theme) : List Char → List Span
  | [] => []
  | ch :: rest =>
    if List.isPrefixOf ['<', '!', '-', '-'] (ch :: rest) then
      [⟨ch :: rest, commentStyle th⟩]
    else if ch = '<' then
      tagSpans th ('<' :: (takeThrough '>' rest).1) ++
        htmlScan th (takeThrough '>' rest).2
    else if ch = '"' ∨ ch = '\'' then
      ⟨ch :: (takeThrough ch rest).1, stringStyle th⟩ ::
        htmlScan th (takeThrough ch rest).2
    else ⟨[ch], baseStyle th⟩ :: htmlScan th rest
termination_by cs => cs.length
decreasing_by
  all_goals simp only [List.length_cons]
  all_goals first
  | exact Nat.lt_succ_of_le (takeThrough_rest_le _ _)
  | omega

/-- The CSS/PHP block-comment-middle heuristic of `highlight_line`
(`src/syntax.rs` lines 275-278): the line's `trim_start` begins with `*`
(or `*/`, which the first test subsumes). -/
def lineIsBlockCommentMiddle (line : List Char) : Bool :=
  let trimmed := line.dropWhile isRustWhitespace
  List.isPrefixOf ['*'] trimmed || List.isPrefixOf ['*', '/'] trimmed

/-- `highlight_line` from `src/syntax.rs`: the Rust function returns the
spans only (its running bracket depth `bd` is local); `scanGeneric` exposes
that depth, and this wrapper drops it exactly as the source does. -/
def highlight_line (line : List Char) (lang : SyntaxLang) (th : Theme)
    (bracket_depth : Nat) (bracket_colors : BracketColors) : List Span :=
  if lang = SyntaxLang.Plain then [⟨line, baseStyle th⟩]
  else if lang = SyntaxLang.Markdown then
    if line.head? = some '#' then [⟨line, headingStyle th⟩]
    else [⟨line, baseStyle th⟩]
  else if lang = SyntaxLang.HtmlXml then htmlScan th line
  else if (lang = SyntaxLang.Php ∨ lang = SyntaxLang.Css) ∧
      lineIsBlockCommentMiddle line then
    [⟨line, commentStyle th⟩]
  else (scanGeneric lang th bracket_colors line bracket_depth).1

/-- The concatenation of the text segments of a span list. -/
def spanConcat (spans : List Span) : List Char :=
  (spans.map Span.content).flatten

/-- `Char::to_ascii_lowercase`. -/
def asciiLower (c : Char) : Char :=
  if 'A' ≤ c ∧ c ≤ 'Z' then Char.ofNat (c.toNat + 32) else c

/-- The final component of a path (the characters after the last `/`),
modelling `Path::file_name` for the file paths language detection sees. -/
def fileNameOf (p : List Char) : List Char :=
  ((p.reverse.takeWhile (fun c => ¬ c = '/'))).reverse

/-- `Path::extension`: the part of the final component after its last `.`;
`none` when there is no `.` or when the only `.` is the leading character
(hidden files). -/
def extensionOf (p : List Char) : Option (List Char) :=
  let f := fileNameOf p
  let revAfter := f.reverse.takeWhile (fun c => ¬ c = '.')
  if revAfter.length = f.length then none
  else if f.length = revAfter.length + 1 then none
  else some revAfter.reverse

/-- Extensions mapped to `SyntaxLang::Rust`. -/
def rustExts : List (List Char) := [ ['r', 's'] ]

/-- Extensions mapped to `SyntaxLang::Python`. -/
def pyExts : List (List Char) := [ "py".data, "pyi".data ]

/-- Extensions mapped to `SyntaxLang::JsTs`. -/
def jsExts : List (List Char) :=
  [ "js".data, "jsx".data, "ts".data, "tsx".data, "mjs".data, "cjs".data,
    "mts".data, "cts".data ]

/-- Extensions mapped to `SyntaxLang::Go`. -/
def goExts : List (List Char) := [ "go".data ]

/-- Extensions mapped to `SyntaxLang::Php`. -/
def phpExts : List (List Char) := [ "php".data, "phtml".data ]

/-- Extensions mapped to `SyntaxLang::Css`. -/
def cssExts : List (List Char) :=
  [ "css".data, "scss".data, "sass".data, "less".data ]

/-- Extensions mapped to `SyntaxLang::HtmlXml`. -/
def htmlExts : List (List Char) :=
  [ "html".data, "htm".data, "xml".data, "svg".data, "xhtml".data,
    "vue".data, "svelte".data, "astro".data, "jsp".data, "erb".data,
    "hbs".data, "ejs".data ]

/-- Extensions mapped to `SyntaxLang::Shell`. -/
def shExts : List (List Char) :=
  [ "sh".data, "bash".data, "zsh".data, "fish".data, "ksh".data ]

/-- Extensions mapped to `SyntaxLang::Json`. -/
def jsonExts : List (List Char) :=
  [ "json".data, "jsonc".data, "toml".data, "yaml".data, "yml".data ]

/-- Extensions mapped to `SyntaxLang::Markdown`. -/
def mdExts : List (List Char) := [ "md".data, "markdown".data ]

/-- Every extension some `match` arm of `syntax_lang_for_path` recognizes. -/
def recognizedExts : List (List Char) :=
  rustExts ++ pyExts ++ jsExts ++ goExts ++ phpExts ++ cssExts ++ htmlExts ++
    shExts ++ jsonExts ++ mdExts

/-- The `match ext.as_str()` of `syntax_lang_for_path`, on the lowercased
extension. -/
def langOfExt (e : List Char) : SyntaxLang :=
  if e ∈ rustExts then SyntaxLang.Rust
  else if e ∈ pyExts then SyntaxLang.Python
  else if e ∈ jsExts then SyntaxLang.JsTs
  else if e ∈ goExts then SyntaxLang.Go
  else if e ∈ phpExts then SyntaxLang.Php
  else if e ∈ cssExts then SyntaxLang.Css
  else if e ∈ htmlExts then SyntaxLang.HtmlXml
  else if e ∈ shExts then SyntaxLang.Shell
  else if e ∈ jsonExts then SyntaxLang.Json
  else if e ∈ mdExts then SyntaxLang.Markdown
  else SyntaxLang.Plain

/-- `syntax_lang_for_path` from `src/syntax.rs`: a missing path short-circuits
to Plain; otherwise the extension (defaulted to the empty string when absent,
`unwrap_or_default`) is ASCII-lowercased and matched. -/
def syntax_lang_for_path (path : Option (List Char)) : SyntaxLang :=
  match path with
  | none => SyntaxLang.Plain
  | some p => langOfExt (((extensionOf p).getD []).map asciiLower)

/-- The two prompt flags a `Tab` carries (`src/tab.rs` lines 35-38). -/
structure TabPrompts where
  recovery_prompt_open : Bool
  conflict_prompt_open : Bool
deriving DecidableEq

/-- The boolean state `App::handle_key` / `App::handle_mouse` consult before
routing an event (`src/app/input.rs`), in the order the code checks them.
`active_tab` is `none` when no tab is open. -/
structure InputFlags where
  keybind_editor_open : Bool
  file_picker_open : Bool
  active_tab : Option TabPrompts
  prompt_some : Bool
  completion_open : Bool
  search_results_open : Bool
  editor_context_menu_open : Bool
  context_menu_open : Bool
  theme_browser_open : Bool
  menu_open : Bool
  help_open : Bool
deriving DecidableEq

/-- `self.active_tab().is_some_and(|t| t.recovery_prompt_open)`. -/
def activeRecovery (a : InputFlags) : Bool :=
  match a.active_tab with
  | some t => t.recovery_prompt_open
  | none => false

/-- `self.active_tab().is_some_and(|t| t.conflict_prompt_open)`. -/
def activeConflict (a : InputFlags) : Bool :=
  match a.active_tab with
  | some t => t.conflict_prompt_open
  | none => false

/-- Where `App::handle_key` routes a key press; `mainDispatch` is everything
after the modal chain (pending actions, global keybinds, tree/editor keys —
the only region where buffer edits and saves are executed). -/
inductive KeyRoute
  | keybindEditor
  | filePicker
  | recoveryPrompt
  | conflictPrompt
  | promptHandler
  | completion
  | searchResults
  | editorContextMenu
  | contextMenu
  | themeBrowser
  | menu
  | help
  | mainDispatch
deriving DecidableEq

/-- The modal dispatch chain of `App::handle_key`
(`src/app/input.rs` lines 20-55), in source order. -/
def keyRoute (a : InputFlags) : KeyRoute :=
  if a.keybind_editor_open then KeyRoute.keybindEditor
  else if a.file_picker_open then KeyRoute.filePicker
  else if activeRecovery a then KeyRoute.recoveryPrompt
  else if activeConflict a then KeyRoute.conflictPrompt
  else if a.prompt_some then KeyRoute.promptHandler
  else if a.completion_open then KeyRoute.completion
  else if a.search_results_open then KeyRoute.searchResults
  else if a.editor_context_menu_open then KeyRoute.editorContextMenu
  else if a.context_menu_open then KeyRoute.contextMenu
  else if a.theme_browser_open then KeyRoute.themeBrowser
  else if a.menu_open then KeyRoute.menu
  else if a.help_open then KeyRoute.help
  else KeyRoute.mainDispatch

/-- Where `App::handle_mouse` routes a mouse event; `ignored` is an early
`return Ok(())` with no state change, `helpClose` closes the help overlay on
a left click. -/
inductive MouseRoute
  | helpClose
  | ignored
  | searchResults
  | completion
  | editorContextMenu
  | contextMenu
  | menu
  | themeBrowser
  | mainDispatch
deriving DecidableEq

/-- The modal dispatch chain of `App::handle_mouse`
(`src/app/input.rs` lines 115-152), in source order. -/
def mouseRoute (a : InputFlags) : MouseRoute :=
  if a.help_open then MouseRoute.helpClose
  else if a.prompt_some then MouseRoute.ignored
  else if activeRecovery a || activeConflict a then MouseRoute.ignored
  else if a.search_results_open then MouseRoute.searchResults
  else if a.completion_open then MouseRoute.completion
  else if a.editor_context_menu_open then MouseRoute.editorContextMenu
  else if a.context_menu_open then MouseRoute.contextMenu
  else if a.menu_open then MouseRoute.menu
  else if a.theme_browser_open then MouseRoute.themeBrowser
  else MouseRoute.mainDispatch

/-- The double-click test of the tree click handler (`src/app/input.rs`
lines 197-200): the previous recorded click, when present, was on the same
index and strictly less than 400 milliseconds ago.  Times are in
milliseconds; `Instant::elapsed` is the saturating difference `now - t`. -/
def isDoubleClick (last : Option (Nat × Nat)) (now idx : Nat) : Bool :=
  match last with
  | none => false
  | some (t, prevIdx) => prevIdx = idx && now - t < 400

/-- The file branch of a left tree click (`src/app/input.rs` lines 196-209):
records the click and returns the `preview` flag passed to `open_file_as`
(`true` on a single click, `false` on a double click) together with the new
`last_tree_click`. -/
def treeFileClick (last : Option (Nat × Nat)) (now idx : Nat) :
    Bool × Option (Nat × Nat) :=
  (!(isDoubleClick last now idx), some (now, idx))

/-- Modelled from the spec: the document-session lifecycle state
(spec §4.3, design note §9) — the edit/save/conflict/recovery handlers of
the application are not among the provided sources (`src/tab.rs` only
declares the `Tab` fields `dirty`, `open_disk_snapshot`,
`conflict_disk_text` and `recovery_text`), so the state machine is taken
from the spec's words: Clean, Dirty, and the two pending states carrying
their staged alternate text. -/
inductive Lifecycle
  | Clean
  | Dirty
  | ConflictPending (diskText : List String)
  | RecoveryPending (recText : List String)
deriving DecidableEq

/-- Modelled from the spec: one document session's buffer, disk snapshot,
derived dirty flag and lifecycle state (spec §3, §4.3). -/
structure Session where
  buffer : List String
  disk_snapshot : List String
  dirty : Bool
  state : Lifecycle
deriving DecidableEq

/-- Modelled from the spec: the operations of §4.3 — edits, save,
detection of an independent disk change, and the resolutions of the two
pending prompts. -/
inductive SessionOp
  | edit (newBuffer : List String)
  | save
  | diskChange (newDisk : List String)
  | resolveConflictKeepMine
  | resolveConflictReload
  | resolveConflictCancel
  | resolveRecoveryRestore
  | resolveRecoveryDiscard
deriving DecidableEq

/-- Modelled from the spec: session creation on file open (spec §4.3
"Initial"): the disk content becomes both buffer and snapshot; a recovery
artifact whose text differs from the loaded content opens the recovery
prompt. -/
def openSession (diskContent : List String) (artifact : Option (List String)) :
    Session :=
  match artifact with
  | some a =>
    if a = diskContent then ⟨diskContent, diskContent, false, Lifecycle.Clean⟩
    else ⟨diskContent, diskContent, false, Lifecycle.RecoveryPending a⟩
  | none => ⟨diskContent, diskContent, false, Lifecycle.Clean⟩

/-- Modelled from the spec: the transition function of §4.3.  Edits and
saves are refused (state unchanged) while either pending prompt is open;
the dirty flag is recomputed on every edit and cleared by a save and by
both conflict resolutions. -/
def applyOp (op : SessionOp) (s : Session) : Session :=
  match op with
  | SessionOp.edit nb =>
    match s.state with
    | Lifecycle.ConflictPending _ => s
    | Lifecycle.RecoveryPending _ => s
    | _ =>
      if nb = s.disk_snapshot then
        { s with buffer := nb, dirty := false, state := Lifecycle.Clean }
      else { s with buffer := nb, dirty := true, state := Lifecycle.Dirty }
  | SessionOp.save =>
    match s.state with
    | Lifecycle.ConflictPending _ => s
    | Lifecycle.RecoveryPending _ => s
    | _ =>
      { s with disk_snapshot := s.buffer, dirty := false,
               state := Lifecycle.Clean }
  | SessionOp.diskChange nd =>
    match s.state with
    | Lifecycle.Dirty => { s with state := Lifecycle.ConflictPending nd }
    | _ => s
  | SessionOp.resolveConflictKeepMine =>
    match s.state with
    | Lifecycle.ConflictPending _ =>
      { s with disk_snapshot := s.buffer, dirty := false,
               state := Lifecycle.Clean }
    | _ => s
  | SessionOp.resolveConflictReload =>
    match s.state with
    | Lifecycle.ConflictPending c =>
      { s with buffer := c, disk_snapshot := c, dirty := false,
               state := Lifecycle.Clean }
    | _ => s
  | SessionOp.resolveConflictCancel =>
    match s.state with
    | Lifecycle.ConflictPending _ => { s with state := Lifecycle.Dirty }
    | _ => s
  | SessionOp.resolveRecoveryRestore =>
    match s.state with
    | Lifecycle.RecoveryPending r =>
      { s with buffer := r, dirty := true, state := Lifecycle.Dirty }
    | _ => s
  | SessionOp.resolveRecoveryDiscard =>
    match s.state with
    | Lifecycle.RecoveryPending _ => { s with state := Lifecycle.Clean }
    | _ => s

/-- The session invariants that hold in every reachable state: the dirty
flag mirrors the buffer/snapshot comparison, and a pending recovery prompt
stages text that differs from the snapshot of an unedited buffer. -/
def SessionWF (s : Session) : Prop :=
  (s.dirty = true ↔ s.buffer ≠ s.disk_snapshot) ∧
  (match s.state with
   | Lifecycle.RecoveryPending r =>
     r ≠ s.disk_snapshot ∧ s.buffer = s.disk_snapshot
   | _ => True)

instance (s : Session) : Decidable (SessionWF s) := by
  unfold SessionWF
  cases h : s.state <;> simp only [h] <;> exact inferInstance

/-- A spec-level description of the closing-quote search used to settle the
string-literal claim: the index (among the characters after the opening
quote) of the next occurrence of `q` that is not skipped, where a `\`
always skips the character right after it. -/
def specUnescapedClose (q : Char) : List Char → Option Nat
  | [] => none
  | c :: cs =>
    if c = '\\' then
      match cs with
      | [] => none
      | _ :: cs' => Option.map (· + 2) (specUnescapedClose q cs')
    else if c = q then some 0
    else Option.map (· + 1) (specUnescapedClose q cs)

/-- The test theme of `src/syntax.rs` (`create_test_theme`), restricted to
the fields `highlight_line` reads. -/
def testTheme : Theme :=
  ⟨Color.Rgb 220 220 220, Color.Rgb 86 156 214, Color.Rgb 100 100 120,
   Color.Rgb 156 220 140, Color.Rgb 181 206 168, Color.Rgb 86 156 214,
   Color.Rgb 78 201 176⟩

/-- The bracket cycle of the source's tests: `bracket_1`, `bracket_2`,
`bracket_3` of the test theme — three pairwise distinct colors. -/
def testBrackets : BracketColors :=
  ⟨Color.Rgb 210 168 75, Color.Rgb 176 82 204, Color.Rgb 0 175 215⟩

/-- A concrete Rust line used as a witness input. -/
def rustLine : List Char := "fn main(x1)".data

/-- The HtmlXml line `<a  b>` (double space inside the tag). -/
def htmlTagLine : List Char := "<a  b>".data

/-- The spec's bracket-color test line. -/
def bracketLine : List Char := "{ ( ) }".data

/-- A string-literal body with a backslash-skipped quote. -/
def escLine : List Char := "a\\\"b\"c".data

/-- The spec's HTML comment test line. -/
def htmlCommentLine : List Char := "<!-- a --> rest".data

/-- The characters of `htmlCommentLine` after the `<!--` opener. -/
def htmlCommentRest : List Char := " a --> rest".data

/-- The spec's Markdown test line. -/
def mdTitleLine : List Char := "# Title".data

/-- Two opening parentheses. -/
def parenParen : List Char := "((".data

/-- The path `test.RS` (uppercase extension). -/
def pathTestRS : List Char := "test.RS".data

/-- The path `test.rs`. -/
def pathTestRs : List Char := "test.rs".data

/-- The path `Makefile` (no extension). -/
def pathMakefile : List Char := "Makefile".data

/-- The path `test.xyz` (unrecognized extension). -/
def pathTestXyz : List Char := "test.xyz".data

/-- `spanConcat` of an empty span list. -/
theorem spanConcat_nil : spanConcat [] = [] := rfl

/-- `spanConcat` distributes over cons. -/
theorem spanConcat_cons (s : Span) (l : List Span) :
    spanConcat (s :: l) = s.content ++ spanConcat l := by
  simp [spanConcat]

/-- `isPrefixOf` on two nonempty lists, unfolded. -/
theorem isPrefixOf_cons_cons (a b : Char) (as bs : List Char) :
    List.isPrefixOf (a :: as) (b :: bs) = (a == b && List.isPrefixOf as bs) :=
  rfl

/-- No comment marker fires at a scan position whose character is neither
`/` nor `#`: all markers of `comment_start_for_lang` start with one of
those two characters. -/
theorem commentHit_cons_none (lang : SyntaxLang) (ch : Char)
    (rest : List Char) (h1 : ch ≠ '/') (h2 : ch ≠ '#') :
    commentHit lang (ch :: rest) = none := by
  cases lang <;>
    simp [commentHit, comment_start_for_lang, slashStar,
      isPrefixOf_cons_cons, h1, h2, Ne.symm h1, Ne.symm h2]

/-- The spans emitted by the generic scan cover the input exactly: their
concatenation is the scanned text (stated with an explicit length bound for
the strong induction). -/
theorem scanGeneric_concat_aux (lang : SyntaxLang) (th : Theme)
    (bc : BracketColors) :
    ∀ n cs bd, cs.length ≤ n →
      spanConcat (scanGeneric lang th bc cs bd).1 = cs := by
  intro n
  induction n with
  | zero =>
    intro cs bd h
    have hnil : cs = [] := List.eq_nil_of_length_eq_zero (Nat.le_zero.mp h)
    subst hnil
    rw [scanGeneric]
    exact spanConcat_nil
  | succ n ih =>
    intro cs bd h
    cases cs with
    | nil =>
      rw [scanGeneric]
      exact spanConcat_nil
    | cons ch rest =>
      rw [scanGeneric]
      cases hcom : commentHit lang (ch :: rest) with
      | some hit =>
        cases hit with
        | block m =>
          have hlen : ((ch :: rest).drop (m + 4)).length ≤ n := by
            simp only [List.length_drop, List.length_cons]
            simp only [List.length_cons] at h
            omega
          simp only [spanConcat_cons, ih _ bd hlen]
          exact List.take_append_drop (m + 4) (ch :: rest)
        | toEol =>
          simp [spanConcat_cons, spanConcat_nil]
      | none =>
        simp only [List.length_cons] at h
        have h' : rest.length ≤ n := by omega
        by_cases hq : ch = '"' ∨ ch = '\''
        · have hlen : (takeString ch rest).2.length ≤ n :=
            le_trans (takeString_rest_le ch rest) h'
          simp only [hq, if_true, spanConcat_cons, ih _ bd hlen,
            List.cons_append]
          rw [takeString_append]
        · simp only [hq, if_false]
          by_cases hd : ch.isDigit
          · have hlen : (rest.dropWhile isNumContChar).length ≤ n :=
              le_trans (dropWhile_length_le isNumContChar rest) h'
            simp only [hd, if_true, spanConcat_cons, ih _ bd hlen,
              List.cons_append]
            rw [List.takeWhile_append_dropWhile]
          · simp only [hd, Bool.false_eq_true, if_false]
            by_cases hi : is_ident_char ch
            · have hlen : (rest.dropWhile is_ident_char).length ≤ n :=
                le_trans (dropWhile_length_le is_ident_char rest) h'
              simp only [hi, if_true, spanConcat_cons, ih _ bd hlen,
                List.cons_append]
              rw [List.takeWhile_append_dropWhile]
            · simp only [hi, Bool.false_eq_true, if_false]
              have hlen : rest.length ≤ n := h'
              by_cases ho : ch = '{' ∨ ch = '(' ∨ ch = '['
              · simp [ho, spanConcat_cons, ih _ _ hlen]
              · by_cases hc : ch = '}' ∨ ch = ')' ∨ ch = ']'
                · simp [ho, hc, spanConcat_cons, ih _ _ hlen]
                · simp [ho, hc, spanConcat_cons, ih _ _ hlen]

/-- The generic scan covers its input exactly. -/
theorem scanGeneric_concat (lang : SyntaxLang) (th : Theme)
    (bc : BracketColors) (cs : List Char) (bd : Nat) :
    spanConcat (scanGeneric lang th bc cs bd).1 = cs :=
  scanGeneric_concat_aux lang th bc cs.length cs bd (le_refl _)

/-- C1 (amended): for every language other than HtmlXml, the concatenation
of the text segments emitted by `highlight_line` equals the input line
exactly, for every theme, incoming depth and bracket cycle. -/
theorem c1_amended_span_concat (line : List Char) (lang : SyntaxLang)
    (th : Theme) (bd : Nat) (bc : BracketColors)
    (hlang : lang ≠ SyntaxLang.HtmlXml) :
    spanConcat (highlight_line line lang th bd bc) = line := by
  have hgen : ∀ l : SyntaxLang,
      spanConcat ((scanGeneric l th bc line bd)).1 = line :=
    fun l => scanGeneric_concat l th bc line bd
  cases lang with
  | HtmlXml => exact absurd rfl hlang
  | Plain => simp [highlight_line, spanConcat]
  | Markdown =>
    by_cases hh : line.head? = some '#' <;>
      simp [highlight_line, hh, spanConcat]
  | Php =>
    by_cases hb : lineIsBlockCommentMiddle line
    · simp [highlight_line, hb, spanConcat]
    · simp only [highlight_line, hb, reduceIte, Bool.false_eq_true,
        and_false, if_false]
      simp
      exact hgen SyntaxLang.Php
  | Css =>
    by_cases hb : lineIsBlockCommentMiddle line
    · simp [highlight_line, hb, spanConcat]
    · simp only [highlight_line, hb, reduceIte, Bool.false_eq_true,
        and_false, if_false]
      simp
      exact hgen SyntaxLang.Css
  | Rust => simpa [highlight_line, spanConcat] using hgen SyntaxLang.Rust
  | Python => simpa [highlight_line, spanConcat] using hgen SyntaxLang.Python
  | JsTs => simpa [highlight_line, spanConcat] using hgen SyntaxLang.JsTs
  | Go => simpa [highlight_line, spanConcat] using hgen SyntaxLang.Go
  | Shell => simpa [highlight_line, spanConcat] using hgen SyntaxLang.Shell
  | Json => simpa [highlight_line, spanConcat] using hgen SyntaxLang.Json

/-- Witness for `c1_amended_span_concat` at a concrete Rust line. -/
theorem c1_amended_span_concat_witness :
    spanConcat
      (highlight_line rustLine SyntaxLang.Rust
        testTheme 0 testBrackets) = rustLine :=
  c1_amended_span_concat rustLine SyntaxLang.Rust
    testTheme 0 testBrackets (by decide)

/-- C1 counterexample: in the HtmlXml tag branch, `split_whitespace`
re-joined with single spaces collapses the double space of `<a  b>`, so the
emitted segments concatenate to `<a b>`, not the input line. -/
theorem c1_counterexample :
    spanConcat
      (highlight_line htmlTagLine SyntaxLang.HtmlXml testTheme 0
        testBrackets) ≠ htmlTagLine := by
  have hline :
      highlight_line htmlTagLine SyntaxLang.HtmlXml testTheme 0
        testBrackets = htmlScan testTheme htmlTagLine := by
    simp [highlight_line]
  rw [hline]
  simp +decide [htmlTagLine, htmlScan, takeThrough, tagSpans, splitWs,
    attrSpans, isRustWhitespace, spanConcat]

/-- Step equation of the generic scan at an opening bracket: the span is
colored by the cycle entry at the *current* depth mod 3, and scanning
continues at the saturating-incremented depth. -/
theorem scanGeneric_open_step (lang : SyntaxLang) (th : Theme)
    (bc : BracketColors) (ch : Char) (rest : List Char) (bd : Nat)
    (h : ch = '{' ∨ ch = '(' ∨ ch = '[') :
    scanGeneric lang th bc (ch :: rest) bd =
      (⟨[ch], bracketStyle (bcGet bc (bd % 3))⟩ ::
        (scanGeneric lang th bc rest (satAdd1 bd)).1,
       (scanGeneric lang th bc rest (satAdd1 bd)).2) := by
  rcases h with h | h | h <;> subst h <;>
    (rw [scanGeneric, commentHit_cons_none _ _ _ (by decide) (by decide)]
     simp +decide [is_ident_char])

/-- Step equation of the generic scan at a closing bracket: the depth is
decremented (saturating at 0) first, and the span is colored by the cycle
entry at the *new* depth mod 3. -/
theorem scanGeneric_close_step (lang : SyntaxLang) (th : Theme)
    (bc : BracketColors) (ch : Char) (rest : List Char) (bd : Nat)
    (h : ch = '}' ∨ ch = ')' ∨ ch = ']') :
    scanGeneric lang th bc (ch :: rest) bd =
      (⟨[ch], bracketStyle (bcGet bc ((bd - 1) % 3))⟩ ::
        (scanGeneric lang th bc rest (bd - 1)).1,
       (scanGeneric lang th bc rest (bd - 1)).2) := by
  rcases h with h | h | h <;> subst h <;>
    (rw [scanGeneric, commentHit_cons_none _ _ _ (by decide) (by decide)]
     simp +decide [is_ident_char])

/-- The depth carried by the generic scan never exceeds the `u16` bound
(stated with an explicit length bound for the strong induction). -/
theorem scanGeneric_depth_le_aux (lang : SyntaxLang) (th : Theme)
    (bc : BracketColors) :
    ∀ n cs bd, cs.length ≤ n → bd ≤ 65535 →
      (scanGeneric lang th bc cs bd).2 ≤ 65535 := by
  intro n
  induction n with
  | zero =>
    intro cs bd h hbd
    have hnil : cs = [] := List.eq_nil_of_length_eq_zero (Nat.le_zero.mp h)
    subst hnil
    rw [scanGeneric]
    exact hbd
  | succ n ih =>
    intro cs bd h hbd
    cases cs with
    | nil =>
      rw [scanGeneric]
      exact hbd
    | cons ch rest =>
      simp only [List.length_cons] at h
      have h' : rest.length ≤ n := by omega
      rw [scanGeneric]
      cases hcom : commentHit lang (ch :: rest) with
      | some hit =>
        cases hit with
        | block m =>
          have hlen : ((ch :: rest).drop (m + 4)).length ≤ n := by
            simp only [List.length_drop, List.length_cons]
            omega
          simpa using ih _ bd hlen hbd
        | toEol => simpa using hbd
      | none =>
        by_cases hq : ch = '"' ∨ ch = '\''
        · have hlen : (takeString ch rest).2.length ≤ n :=
            le_trans (takeString_rest_le ch rest) h'
          simpa [hq] using ih _ bd hlen hbd
        · simp only [hq, if_false]
          by_cases hd : ch.isDigit
          · have hlen : (rest.dropWhile isNumContChar).length ≤ n :=
              le_trans (dropWhile_length_le isNumContChar rest) h'
            simpa [hd] using ih _ bd hlen hbd
          · simp only [hd, Bool.false_eq_true, if_false]
            by_cases hi : is_ident_char ch
            · have hlen : (rest.dropWhile is_ident_char).length ≤ n :=
                le_trans (dropWhile_length_le is_ident_char rest) h'
              simpa [hi] using ih _ bd hlen hbd
            · simp only [hi, Bool.false_eq_true, if_false]
              by_cases ho : ch = '{' ∨ ch = '(' ∨ ch = '['
              · have hsat : satAdd1 bd ≤ 65535 := min_le_right _ _
                simpa [ho] using ih _ _ h' hsat
              · by_cases hc : ch = '}' ∨ ch = ')' ∨ ch = ']'
                · have hsub : bd - 1 ≤ 65535 :=
                    le_trans (Nat.sub_le bd 1) hbd
                  simpa [ho, hc] using ih _ _ h' hsub
                · simpa [ho, hc] using ih _ _ h' hbd

/-- C2: an opening bracket is colored with the cycle entry at the current
depth mod 3 and the depth then increments; a closing bracket decrements the
depth first and is colored with the entry at the new depth mod 3; on the
line `{ ( ) }` scanned from depth 0 with the source's test cycle, the `{`
and `}` spans share the first cycle color, the `(` and `)` spans share the
second, and the two colors differ. -/
theorem c2_bracket_colors :
    (∀ (lang : SyntaxLang) (th : Theme) (bc : BracketColors) (ch : Char)
        (rest : List Char) (bd : Nat), ch = '{' ∨ ch = '(' ∨ ch = '[' →
      scanGeneric lang th bc (ch :: rest) bd =
        (⟨[ch], bracketStyle (bcGet bc (bd % 3))⟩ ::
          (scanGeneric lang th bc rest (satAdd1 bd)).1,
         (scanGeneric lang th bc rest (satAdd1 bd)).2)) ∧
    (∀ (lang : SyntaxLang) (th : Theme) (bc : BracketColors) (ch : Char)
        (rest : List Char) (bd : Nat), ch = '}' ∨ ch = ')' ∨ ch = ']' →
      scanGeneric lang th bc (ch :: rest) bd =
        (⟨[ch], bracketStyle (bcGet bc ((bd - 1) % 3))⟩ ::
          (scanGeneric lang th bc rest (bd - 1)).1,
         (scanGeneric lang th bc rest (bd - 1)).2)) ∧
    (highlight_line bracketLine SyntaxLang.Rust testTheme 0 testBrackets =
      [⟨['{'], bracketStyle testBrackets.c0⟩, ⟨[' '], baseStyle testTheme⟩,
       ⟨['('], bracketStyle testBrackets.c1⟩, ⟨[' '], baseStyle testTheme⟩,
       ⟨[')'], bracketStyle testBrackets.c1⟩, ⟨[' '], baseStyle testTheme⟩,
       ⟨['}'], bracketStyle testBrackets.c0⟩]) ∧
    testBrackets.c0 ≠ testBrackets.c1 := by
  refine ⟨scanGeneric_open_step, scanGeneric_close_step, ?_, by decide⟩
  simp +decide [bracketLine, highlight_line, scanGeneric, commentHit,
    comment_start_for_lang, slashStar, findStarSlash, takeString,
    is_ident_char, isNumContChar, keywords_for_lang, satAdd1, bcGet,
    lineIsBlockCommentMiddle, isRustWhitespace]

/-- Witness for `c2_bracket_colors`: the step equations applied to `{` at
depth 0 and `)` at depth 2. -/
theorem c2_bracket_colors_witness :
    (scanGeneric SyntaxLang.Rust testTheme testBrackets ['{'] 0 =
      (⟨['{'], bracketStyle (bcGet testBrackets (0 % 3))⟩ ::
        (scanGeneric SyntaxLang.Rust testTheme testBrackets [] (satAdd1 0)).1,
       (scanGeneric SyntaxLang.Rust testTheme testBrackets []
          (satAdd1 0)).2)) ∧
    (scanGeneric SyntaxLang.Rust testTheme testBrackets [')'] 2 =
      (⟨[')'], bracketStyle (bcGet testBrackets ((2 - 1) % 3))⟩ ::
        (scanGeneric SyntaxLang.Rust testTheme testBrackets [] (2 - 1)).1,
       (scanGeneric SyntaxLang.Rust testTheme testBrackets [] (2 - 1)).2)) :=
  ⟨c2_bracket_colors.1 SyntaxLang.Rust testTheme testBrackets '{' [] 0
      (Or.inl rfl),
   c2_bracket_colors.2.1 SyntaxLang.Rust testTheme testBrackets ')' [] 2
      (Or.inr (Or.inl rfl))⟩

/-- C8: the bracket depth uses saturating `u16` arithmetic: a closing
bracket at depth 0 keeps the depth at 0 and takes the cycle entry at index
0; an opening bracket at depth 65535 keeps the depth at 65535; and the
outgoing depth of a scan started within the `u16` range stays within it —
the scan is total on every input. -/
theorem c8_depth_saturation :
    (∀ (lang : SyntaxLang) (th : Theme) (bc : BracketColors) (ch : Char)
        (rest : List Char), ch = '}' ∨ ch = ')' ∨ ch = ']' →
      scanGeneric lang th bc (ch :: rest) 0 =
        (⟨[ch], bracketStyle (bcGet bc 0)⟩ ::
          (scanGeneric lang th bc rest 0).1,
         (scanGeneric lang th bc rest 0).2)) ∧
    (∀ (lang : SyntaxLang) (th : Theme) (bc : BracketColors) (ch : Char)
        (rest : List Char), ch = '{' ∨ ch = '(' ∨ ch = '[' →
      scanGeneric lang th bc (ch :: rest) 65535 =
        (⟨[ch], bracketStyle (bcGet bc (65535 % 3))⟩ ::
          (scanGeneric lang th bc rest 65535).1,
         (scanGeneric lang th bc rest 65535).2)) ∧
    (∀ (lang : SyntaxLang) (th : Theme) (bc : BracketColors)
        (cs : List Char) (bd : Nat), bd ≤ 65535 →
      (scanGeneric lang th bc cs bd).2 ≤ 65535) := by
  refine ⟨?_, ?_, ?_⟩
  · intro lang th bc ch rest h
    simpa using scanGeneric_close_step lang th bc ch rest 0 h
  · intro lang th bc ch rest h
    have hsat : satAdd1 65535 = 65535 := by decide
    simpa [hsat] using scanGeneric_open_step lang th bc ch rest 65535 h
  · intro lang th bc cs bd hbd
    exact scanGeneric_depth_le_aux lang th bc cs.length cs bd (le_refl _) hbd

/-- Witness for `c8_depth_saturation`: `]` at depth 0 and `[` at depth
65535, plus the depth bound on a concrete scan. -/
theorem c8_depth_saturation_witness :
    (scanGeneric SyntaxLang.Rust testTheme testBrackets [']'] 0 =
      (⟨[']'], bracketStyle (bcGet testBrackets 0)⟩ ::
        (scanGeneric SyntaxLang.Rust testTheme testBrackets [] 0).1,
       (scanGeneric SyntaxLang.Rust testTheme testBrackets [] 0).2)) ∧
    (scanGeneric SyntaxLang.Rust testTheme testBrackets ['['] 65535 =
      (⟨['['], bracketStyle (bcGet testBrackets (65535 % 3))⟩ ::
        (scanGeneric SyntaxLang.Rust testTheme testBrackets [] 65535).1,
       (scanGeneric SyntaxLang.Rust testTheme testBrackets [] 65535).2)) ∧
    (scanGeneric SyntaxLang.Rust testTheme testBrackets parenParen 65534).2 ≤
      65535 :=
  ⟨c8_depth_saturation.1 SyntaxLang.Rust testTheme testBrackets ']' []
      (Or.inr (Or.inr rfl)),
   c8_depth_saturation.2.1 SyntaxLang.Rust testTheme testBrackets '[' []
      (Or.inr (Or.inr rfl)),
   c8_depth_saturation.2.2 SyntaxLang.Rust testTheme testBrackets
      parenParen 65534 (by decide)⟩

/-- The empty scan. -/
theorem scanGeneric_nil (lang : SyntaxLang) (th : Theme)
    (bc : BracketColors) (bd : Nat) :
    scanGeneric lang th bc [] bd = ([], bd) := by
  rw [scanGeneric]

/-- One-step unfolding of `specUnescapedClose` on a nonempty list. -/
theorem specUnescapedClose_cons (q c : Char) (cs : List Char) :
    specUnescapedClose q (c :: cs) =
      if c = '\\' then
        match cs with
        | [] => none
        | _ :: cs' => Option.map (· + 2) (specUnescapedClose q cs')
      else if c = q then some 0
      else Option.map (· + 1) (specUnescapedClose q cs) := by
  cases cs <;> by_cases h : c = '\\' <;> simp [specUnescapedClose, h]

/-- The string loop of the source equals the spec's description: it consumes
through the next unskipped occurrence of the quote, or the whole rest when
there is none. -/
theorem takeString_spec (q : Char) : ∀ cs : List Char,
    takeString q cs =
      (match specUnescapedClose q cs with
       | some n => (cs.take (n + 1), cs.drop (n + 1))
       | none => (cs, []))
  | [] => by simp [takeString, specUnescapedClose]
  | c :: cs => by
    rw [takeString_cons, specUnescapedClose_cons]
    by_cases h : c = '\\'
    · subst h
      cases cs with
      | nil => simp
      | cons e cs' =>
        have ih := takeString_spec q cs'
        cases hc : specUnescapedClose q cs' with
        | none =>
          rw [hc] at ih
          simp only [hc] at ih ⊢
          simp [ih]
        | some n =>
          rw [hc] at ih
          simp only [hc] at ih ⊢
          simp [ih, List.take_succ_cons, List.drop_succ_cons]
    · by_cases h2 : c = q
      · subst h2
        simp [h]
      · have ih := takeString_spec q cs
        simp only [h, if_false, h2]
        cases hc : specUnescapedClose q cs with
        | none =>
          rw [hc] at ih
          simp only [hc] at ih ⊢
          simp [h, h2, ih]
        | some n =>
          rw [hc] at ih
          simp only [hc] at ih ⊢
          simp [h, h2, ih, List.take_succ_cons, List.drop_succ_cons]

/-- Step equation of the generic scan at a quote character. -/
theorem scanGeneric_quote_step (lang : SyntaxLang) (th : Theme)
    (bc : BracketColors) (q : Char) (rest : List Char) (bd : Nat)
    (hq : q = '"' ∨ q = '\'') :
    scanGeneric lang th bc (q :: rest) bd =
      (⟨q :: (takeString q rest).1, stringStyle th⟩ ::
        (scanGeneric lang th bc (takeString q rest).2 bd).1,
       (scanGeneric lang th bc (takeString q rest).2 bd).2) := by
  have hcom : commentHit lang (q :: rest) = none := by
    rcases hq with h | h <;> subst h <;>
      exact commentHit_cons_none _ _ _ (by decide) (by decide)
  rw [scanGeneric, hcom]
  simp only [hq, if_true, if_pos hq]

/-- C5: in the generic scan, a quote character opens a string span that runs
to the next occurrence of the same quote that is not skipped by a `\`
(a backslash always skips the character right after it and never terminates
the string), or to the end of the line when no such occurrence exists. -/
theorem c5_string_literal (lang : SyntaxLang) (th : Theme)
    (bc : BracketColors) (q : Char) (cs : List Char) (bd : Nat)
    (hq : q = '"' ∨ q = '\'') :
    scanGeneric lang th bc (q :: cs) bd =
      (match specUnescapedClose q cs with
       | some n =>
         (⟨q :: cs.take (n + 1), stringStyle th⟩ ::
           (scanGeneric lang th bc (cs.drop (n + 1)) bd).1,
          (scanGeneric lang th bc (cs.drop (n + 1)) bd).2)
       | none => ([⟨q :: cs, stringStyle th⟩], bd)) := by
  rw [scanGeneric_quote_step lang th bc q cs bd hq, takeString_spec q cs]
  cases hc : specUnescapedClose q cs with
  | some n => simp [hc]
  | none => simp [hc, scanGeneric_nil]

/-- Witness for `c5_string_literal`: a Rust scan of `"a\"b"c` — the
backslash-skipped quote does not close the string, the later quote does. -/
theorem c5_string_literal_witness :
    scanGeneric SyntaxLang.Rust testTheme testBrackets
        ('"' :: escLine) 0 =
      (match specUnescapedClose '"' escLine with
       | some n =>
         (⟨'"' :: (escLine).take (n + 1), stringStyle testTheme⟩ ::
           (scanGeneric SyntaxLang.Rust testTheme testBrackets
             ((escLine).drop (n + 1)) 0).1,
          (scanGeneric SyntaxLang.Rust testTheme testBrackets
             ((escLine).drop (n + 1)) 0).2)
       | none => ([⟨'"' :: escLine, stringStyle testTheme⟩], 0)) :=
  c5_string_literal SyntaxLang.Rust testTheme testBrackets '"'
    escLine 0 (Or.inl rfl)

/-- C6: in the HtmlXml scan, once `<!--` is found at the scan position the
whole remainder of the line is one comment span and scanning stops; in
particular `<!-- a --> rest` is a single comment span with no resumption
after `-->`. -/
theorem c6_html_comment :
    (∀ (th : Theme) (rest : List Char),
      htmlScan th ('<' :: '!' :: '-' :: '-' :: rest) =
        [⟨'<' :: '!' :: '-' :: '-' :: rest, commentStyle th⟩]) ∧
    highlight_line htmlCommentLine SyntaxLang.HtmlXml testTheme 0
        testBrackets =
      [⟨htmlCommentLine, commentStyle testTheme⟩] := by
  have hgen : ∀ (th : Theme) (rest : List Char),
      htmlScan th ('<' :: '!' :: '-' :: '-' :: rest) =
        [⟨'<' :: '!' :: '-' :: '-' :: rest, commentStyle th⟩] := by
    intro th rest
    rw [htmlScan]
    simp [isPrefixOf_cons_cons, List.isPrefixOf]
  refine ⟨hgen, ?_⟩
  have hdisp :
      highlight_line htmlCommentLine SyntaxLang.HtmlXml testTheme 0
        testBrackets = htmlScan testTheme htmlCommentLine := by
    simp [highlight_line]
  rw [hdisp]
  exact hgen testTheme htmlCommentRest

/-- C7: a Markdown line is always a single span covering the whole line —
heading-styled exactly when the line starts with `#`, default-styled
otherwise; in particular `# Title` is one heading span. -/
theorem c7_markdown :
    (∀ (line : List Char) (th : Theme) (bd : Nat) (bc : BracketColors),
      highlight_line line SyntaxLang.Markdown th bd bc =
        if line.head? = some '#' then [⟨line, headingStyle th⟩]
        else [⟨line, baseStyle th⟩]) ∧
    highlight_line mdTitleLine SyntaxLang.Markdown testTheme 0
        testBrackets = [⟨mdTitleLine, headingStyle testTheme⟩] := by
  constructor
  · intro line th bd bc
    by_cases hh : line.head? = some '#' <;> simp [highlight_line, hh]
  · simp +decide [highlight_line]

/-- An extension outside every `match` arm falls to the default `Plain`. -/
theorem langOfExt_not_mem (e : List Char) (he : e ∉ recognizedExts) :
    langOfExt e = SyntaxLang.Plain := by
  have h1 : e ∉ rustExts :=
    fun hm => he (by simp [recognizedExts, List.mem_append, hm])
  have h2 : e ∉ pyExts :=
    fun hm => he (by simp [recognizedExts, List.mem_append, hm])
  have h3 : e ∉ jsExts :=
    fun hm => he (by simp [recognizedExts, List.mem_append, hm])
  have h4 : e ∉ goExts :=
    fun hm => he (by simp [recognizedExts, List.mem_append, hm])
  have h5 : e ∉ phpExts :=
    fun hm => he (by simp [recognizedExts, List.mem_append, hm])
  have h6 : e ∉ cssExts :=
    fun hm => he (by simp [recognizedExts, List.mem_append, hm])
  have h7 : e ∉ htmlExts :=
    fun hm => he (by simp [recognizedExts, List.mem_append, hm])
  have h8 : e ∉ shExts :=
    fun hm => he (by simp [recognizedExts, List.mem_append, hm])
  have h9 : e ∉ jsonExts :=
    fun hm => he (by simp [recognizedExts, List.mem_append, hm])
  have h10 : e ∉ mdExts :=
    fun hm => he (by simp [recognizedExts, List.mem_append, hm])
  simp [langOfExt, h1, h2, h3, h4, h5, h6, h7, h8, h9, h10]

/-- C9: language detection is total — a missing path, a missing extension,
or an extension whose lowercasing is outside the recognized table always
yields Plain, and recognized extensions match case-insensitively
(`test.RS` detects as Rust exactly like `test.rs`). -/
theorem c9_lang_detection :
    syntax_lang_for_path none = SyntaxLang.Plain ∧
    (∀ p : List Char, extensionOf p = none →
      syntax_lang_for_path (some p) = SyntaxLang.Plain) ∧
    (∀ p : List Char,
      ((extensionOf p).getD []).map asciiLower ∉ recognizedExts →
      syntax_lang_for_path (some p) = SyntaxLang.Plain) ∧
    syntax_lang_for_path (some pathTestRS) = SyntaxLang.Rust ∧
    syntax_lang_for_path (some pathTestRs) = SyntaxLang.Rust := by
  refine ⟨rfl, ?_, ?_, by decide, by decide⟩
  · intro p h
    simp only [syntax_lang_for_path, h, Option.getD_none, List.map_nil]
    decide
  · intro p h
    simp only [syntax_lang_for_path]
    exact langOfExt_not_mem _ h

/-- Witness for `c9_lang_detection`: a path without an extension and a path
with an unrecognized extension both detect as Plain. -/
theorem c9_lang_detection_witness :
    syntax_lang_for_path (some pathMakefile) = SyntaxLang.Plain ∧
    syntax_lang_for_path (some pathTestXyz) = SyntaxLang.Plain :=
  ⟨c9_lang_detection.2.1 pathMakefile (by decide),
   c9_lang_detection.2.2.1 pathTestXyz (by decide)⟩

/-- C10: a left click on a file in the tree opens it as a preview unless it
is the second click on the same tree index strictly within 400 ms, which
opens it pinned; a click on a different index, a click at or after 400 ms,
and a first-ever click are always single (preview) clicks. -/
theorem c10_double_click :
    (∀ t prevIdx now idx : Nat, prevIdx = idx → now - t < 400 →
      (treeFileClick (some (t, prevIdx)) now idx).1 = false ∧
      (treeFileClick (some (t, prevIdx)) now idx).2 = some (now, idx)) ∧
    (∀ t prevIdx now idx : Nat, prevIdx ≠ idx →
      (treeFileClick (some (t, prevIdx)) now idx).1 = true) ∧
    (∀ t prevIdx now idx : Nat, ¬ now - t < 400 →
      (treeFileClick (some (t, prevIdx)) now idx).1 = true) ∧
    (∀ now idx : Nat, (treeFileClick none now idx).1 = true) := by
  refine ⟨?_, ?_, ?_, ?_⟩ <;> intros <;>
    simp_all [treeFileClick, isDoubleClick]

/-- Witness for `c10_double_click`: a same-index click after 399 ms is a
double click, after exactly 400 ms or on another index it is single, and a
first click is single. -/
theorem c10_double_click_witness :
    (treeFileClick (some (100, 3)) 499 3).1 = false ∧
    (treeFileClick (some (100, 3)) 499 4).1 = true ∧
    (treeFileClick (some (100, 3)) 500 3).1 = true ∧
    (treeFileClick none 0 0).1 = true :=
  ⟨(c10_double_click.1 100 3 499 3 rfl (by decide)).1,
   c10_double_click.2.1 100 3 499 4 (by decide),
   c10_double_click.2.2.1 100 3 500 3 (by decide),
   c10_double_click.2.2.2 0 0⟩

/-- C4 counterexample: with the keybind editor open and the active tab's
conflict prompt open, `handle_key` routes the key to the keybind editor, not
to the conflict-prompt handler — the keybind-editor and file-picker checks
precede both prompt checks in the dispatch chain. -/
theorem c4_counterexample :
    activeConflict
        ⟨true, false, some ⟨false, true⟩, false, false, false, false, false,
          false, false, false⟩ = true ∧
    keyRoute
        ⟨true, false, some ⟨false, true⟩, false, false, false, false, false,
          false, false, false⟩ = KeyRoute.keybindEditor ∧
    keyRoute
        ⟨true, false, some ⟨false, true⟩, false, false, false, false, false,
          false, false, false⟩ ≠ KeyRoute.conflictPrompt ∧
    keyRoute
        ⟨true, false, some ⟨false, true⟩, false, false, false, false, false,
          false, false, false⟩ ≠ KeyRoute.recoveryPrompt := by
  refine ⟨rfl, rfl, ?_, ?_⟩ <;> decide

/-- C4 (amended): while the active session's conflict or recovery prompt is
open, a key event is routed to the corresponding prompt handler provided
the keybind-editor and file-picker overlays (checked earlier) are closed,
with the recovery prompt winning when both prompts are open; in every case
the key never reaches the main dispatch where edits and saves are executed;
and a mouse event is ignored provided the help overlay is closed. -/
theorem c4_amended_routing (a : InputFlags)
    (h : activeRecovery a = true ∨ activeConflict a = true) :
    (a.keybind_editor_open = false → a.file_picker_open = false →
      keyRoute a =
        (if activeRecovery a then KeyRoute.recoveryPrompt
         else KeyRoute.conflictPrompt)) ∧
    (keyRoute a = KeyRoute.keybindEditor ∨
     keyRoute a = KeyRoute.filePicker ∨
     keyRoute a = KeyRoute.recoveryPrompt ∨
     keyRoute a = KeyRoute.conflictPrompt) ∧
    keyRoute a ≠ KeyRoute.mainDispatch ∧
    (a.help_open = false → mouseRoute a = MouseRoute.ignored) := by
  have hmem : keyRoute a = KeyRoute.keybindEditor ∨
      keyRoute a = KeyRoute.filePicker ∨
      keyRoute a = KeyRoute.recoveryPrompt ∨
      keyRoute a = KeyRoute.conflictPrompt := by
    by_cases hk : a.keybind_editor_open
    · exact Or.inl (by simp [keyRoute, hk])
    · by_cases hf : a.file_picker_open
      · exact Or.inr (Or.inl (by simp [keyRoute, hk, hf]))
      · by_cases hr : activeRecovery a
        · exact Or.inr (Or.inr (Or.inl (by simp [keyRoute, hk, hf, hr])))
        · have hc : activeConflict a = true := by
            rcases h with h | h
            · exact absurd h hr
            · exact h
          exact Or.inr (Or.inr (Or.inr (by simp [keyRoute, hk, hf, hr, hc])))
  refine ⟨?_, hmem, ?_, ?_⟩
  · intro hk hf
    by_cases hr : activeRecovery a
    · simp [keyRoute, hk, hf, hr]
    · have hc : activeConflict a = true := by
        rcases h with h | h
        · exact absurd h hr
        · exact h
      simp [keyRoute, hk, hf, hr, hc]
  · rcases hmem with hm | hm | hm | hm <;> simp [hm]
  · intro hh
    have hor : (activeRecovery a || activeConflict a) = true := by
      rcases h with h | h <;> simp [h]
    by_cases hp : a.prompt_some <;> simp [mouseRoute, hh, hp, hor]

/-- The app state the amended C4 theorem is witnessed at: only the active
tab's conflict prompt is open. -/
def conflictOnlyFlags : InputFlags :=
  ⟨false, false, some ⟨false, true⟩, false, false, false, false, false,
    false, false, false⟩

/-- Witness for `c4_amended_routing` at `conflictOnlyFlags`. -/
theorem c4_amended_routing_witness :
    (conflictOnlyFlags.keybind_editor_open = false →
     conflictOnlyFlags.file_picker_open = false →
      keyRoute conflictOnlyFlags =
        (if activeRecovery conflictOnlyFlags then KeyRoute.recoveryPrompt
         else KeyRoute.conflictPrompt)) ∧
    (keyRoute conflictOnlyFlags = KeyRoute.keybindEditor ∨
     keyRoute conflictOnlyFlags = KeyRoute.filePicker ∨
     keyRoute conflictOnlyFlags = KeyRoute.recoveryPrompt ∨
     keyRoute conflictOnlyFlags = KeyRoute.conflictPrompt) ∧
    keyRoute conflictOnlyFlags ≠ KeyRoute.mainDispatch ∧
    (conflictOnlyFlags.help_open = false →
      mouseRoute conflictOnlyFlags = MouseRoute.ignored) :=
  c4_amended_routing conflictOnlyFlags (Or.inr rfl)

/-- C3: the dirty flag mirrors the buffer/snapshot comparison: it does so in
every freshly opened session, the property (with its recovery-staging side
invariant) is preserved by every session operation, and in every well-formed
session `dirty = true` exactly when the buffer differs from the disk
snapshot. -/
theorem c3_dirty_invariant :
    (∀ (d : List String) (a : Option (List String)),
      SessionWF (openSession d a)) ∧
    (∀ (s : Session) (op : SessionOp),
      SessionWF s → SessionWF (applyOp op s)) ∧
    (∀ s : Session, SessionWF s →
      (s.dirty = true ↔ s.buffer ≠ s.disk_snapshot)) := by
  refine ⟨?_, ?_, fun s hs => hs.1⟩
  · intro d a
    cases a with
    | none => simp [openSession, SessionWF]
    | some x =>
      by_cases hx : x = d <;> simp [openSession, hx, SessionWF]
  · intro s op hs
    obtain ⟨h1, h2⟩ := hs
    cases op <;> cases hst : s.state <;>
      simp_all [applyOp, SessionWF] <;>
      (try split_ifs with hnb) <;>
      simp_all

/-- Witness for `c3_dirty_invariant`: a concrete freshly opened session, a
save applied to it, and the invariant read back from it. -/
theorem c3_dirty_invariant_witness :
    SessionWF (openSession ["line"] none) ∧
    SessionWF (applyOp SessionOp.save (openSession ["line"] none)) ∧
    ((openSession ["line"] none).dirty = true ↔
      (openSession ["line"] none).buffer ≠
        (openSession ["line"] none).disk_snapshot) :=
  ⟨c3_dirty_invariant.1 ["line"] none,
   c3_dirty_invariant.2.1 (openSession ["line"] none) SessionOp.save
     (by decide),
   c3_dirty_invariant.2.2 (openSession ["line"] none) (by decide)⟩
